import Mathlib

/-!
Verification of the hawkauthlib request-signing library.

The development shallowly embeds the Python sources:

* hawkauthlib/noncecache.py  (Cache, NonceCache)
* hawkauthlib/__init__.py    (sign_request, get_signature, hash_payload,
                              verify_payload, check_signature)

The repository's hawkauthlib/utils.py module is not present under src/;
its callers and its tests are.  Every definition standing in for a utils
function is marked with a doc comment starting with the words Modelled
from the spec, and is written to the specification's description of that
component (HeaderCodec, Canonicalizer, SignatureEngine) together with the
behaviour pinned down by the repository's own tests (test_utils.py).

Machine-level conventions of the embedding:

* Python timestamps (time.time() results and the ts parameter) are
  embedded as integers; all comparisons in the sources are order
  comparisons, which the embedding preserves.
* Python exceptions are embedded as an explicit error type PyErr; code
  that catches (KeyError, ValueError) is embedded by handling exactly
  those two constructors.
* Mutation is embedded by explicit state passing: operations that write
  to the request or to a nonce cache return the updated value.
-/

set_option autoImplicit false
set_option maxRecDepth 100000

namespace Hawk

/-- Python exception kinds that the embedded operations can raise.
KeyError: missing dictionary key; ValueError: invalid value (including
the port-resolution failure, see test_utils.py line 136); TypeError:
an operation applied to a value of the wrong type, in particular a call
that does not match the callee's arity. -/
inductive PyErr where
  | keyError
  | valueError
  | typeError
deriving DecidableEq, Repr

/-! ## Authorization parameter maps

The Hawk parameter map (a Python dict from parameter name to value).
A value of none embeds a Python None stored under the key, which the
source can produce: sign_request stores hash_payload's result, which is
None when no payload is available.  Insertion order is preserved, as in
a Python dict. -/

/-- Parameter map: name to (string value, or a stored Python None). -/
abbrev AuthParams := List (String × Option String)

/-- Python params[k] = v: overwrite in place if the key exists, else append. -/
def pSet : AuthParams → String → Option String → AuthParams
  | [], k, v => [(k, v)]
  | (k', v') :: rest, k, v =>
    if k' = k then (k, v) :: rest else (k', v') :: pSet rest k v

/-- Python k in params. -/
def pHas (ps : AuthParams) (k : String) : Bool :=
  (ps.lookup k).isSome

/-- Python params.get(k): the stored value, or None when the key is absent.
A stored None and an absent key both give none, as in Python. -/
def pGet (ps : AuthParams) (k : String) : Option String :=
  (ps.lookup k).join

/-- Python params[k]: the stored value, or KeyError when the key is absent. -/
def pItem (ps : AuthParams) (k : String) : Except PyErr (Option String) :=
  match ps.lookup k with
  | some v => .ok v
  | none => .error .keyError

/-- Python del params[k] / params.pop(k): remove the key. -/
def pRemove : AuthParams → String → AuthParams
  | [], _ => []
  | (k', v') :: rest, k =>
    if k' = k then rest else (k', v') :: pRemove rest k

/-! ## The bounded TTL cache (noncecache.py, class Cache) -/

/-- CacheItem = collections.namedtuple("CacheItem", "value timestamp"). -/
structure CacheItem (α : Type) where
  value : α
  timestamp : Int
deriving DecidableEq, Repr

/-- The in-memory cache of noncecache.py: a lookup map (a dict, embedded
as an association list in insertion order) plus a timestamp-ordered purge
queue (a heapq min-heap, embedded as a list kept sorted by timestamp;
the heap's tie order between equal timestamps is not observable to the
claims and is left as stable insertion). -/
structure Cache (κ α : Type) where
  items : List (κ × CacheItem α)
  ttl : Int
  max_size : Option Nat
  purge_queue : List (Int × κ)
deriving DecidableEq, Repr

variable {κ α : Type} [DecidableEq κ]

/-- Cache(ttl, max_size): fresh empty cache. -/
def Cache.new (ttl : Int) (max_size : Option Nat) : Cache κ α :=
  ⟨[], ttl, max_size, []⟩

/-- Python self.items[key] lookup returning the item, if any. -/
def lookupItem : List (κ × CacheItem α) → κ → Option (CacheItem α)
  | [], _ => none
  | (k', it) :: rest, k => if k' = k then some it else lookupItem rest k

/-- Python self.items[key] = item: overwrite in place or append. -/
def setItem : List (κ × CacheItem α) → κ → CacheItem α → List (κ × CacheItem α)
  | [], k, it => [(k, it)]
  | (k', it') :: rest, k, it =>
    if k' = k then (k, it) :: rest else (k', it') :: setItem rest k it

/-- Python self.items.pop(key, None): remove the key if present. -/
def removeItem : List (κ × CacheItem α) → κ → List (κ × CacheItem α)
  | [], _ => []
  | (k', it') :: rest, k =>
    if k' = k then rest else (k', it') :: removeItem rest k

/-- heapq.heappush on the timestamp-sorted queue: insert before the first
entry with a strictly larger timestamp. -/
def qInsert (e : Int × κ) : List (Int × κ) → List (Int × κ)
  | [] => [e]
  | f :: rest => if e.1 < f.1 then e :: f :: rest else f :: qInsert e rest

/-- Cache._purge_item (noncecache.py lines 83-91): pop the head of the
queue; drop the named item only when its timestamp matches the popped
entry, otherwise put the item back (at the end, as a Python dict
re-insertion does).  On an empty queue this is the identity; the caller
loops raise IndexError there and the source catches it. -/
def Cache.purgeItem (c : Cache κ α) : Cache κ α :=
  match c.purge_queue with
  | [] => c
  | (t, k) :: rest =>
    match lookupItem c.items k with
    | none => { c with purge_queue := rest }
    | some it =>
      if it.timestamp = t then
        { c with purge_queue := rest, items := removeItem c.items k }
      else
        { c with purge_queue := rest, items := removeItem c.items k ++ [(k, it)] }

/-- The while-loop of Cache.set (lines 67-69): purge head items while the
map holds at least max_size entries.  An IndexError from an empty queue
exits the loop (the source catches it).  Each iteration consumes exactly
one queue entry, so running the loop with the queue length as fuel is the
loop run to completion: fuel exhaustion coincides with queue exhaustion,
the IndexError exit. -/
def Cache.purgeSizeLoop : Nat → Nat → Cache κ α → Cache κ α
  | 0, _, c => c
  | fuel + 1, m, c =>
    if m ≤ c.items.length then
      match c.purge_queue with
      | [] => c
      | _ :: _ => Cache.purgeSizeLoop fuel m c.purgeItem
    else c

/-- The for-loop of Cache.set (lines 70-76): purge up to five expired head
items, stopping early at a fresh head or an empty queue. -/
def Cache.purgeExpiredLoop : Nat → Int → Cache κ α → Cache κ α
  | 0, _, c => c
  | n + 1, deadline, c =>
    match c.purge_queue with
    | [] => c
    | (t, _) :: _ =>
      if deadline < t then c
      else Cache.purgeExpiredLoop n deadline c.purgeItem

/-- Cache.set (noncecache.py lines 56-81).  now embeds self.get_time();
a timestamp of none embeds the default timestamp=None.  Size-bound
eviction runs only when max_size is truthy (not None and not zero), then
up to five expired entries are purged, then the new entry is written to
both the map and the queue. -/
def Cache.set (c : Cache κ α) (k : κ) (v : α) (timestamp : Option Int) (now : Int) :
    Cache κ α :=
  let ts := timestamp.getD now
  let deadline := now - c.ttl
  let c1 :=
    if c.max_size.getD 0 ≠ 0 then
      Cache.purgeSizeLoop c.purge_queue.length (c.max_size.getD 0) c
    else c
  let c2 := Cache.purgeExpiredLoop 5 deadline c1
  { c2 with
    items := setItem c2.items k ⟨v, ts⟩
    purge_queue := qInsert (ts, k) c2.purge_queue }

/-- Cache.__contains__ (lines 41-48): the key is present and its entry has
not yet expired (an entry with timestamp + ttl <= now counts as absent). -/
def Cache.containsKey (c : Cache κ α) (k : κ) (now : Int) : Bool :=
  match lookupItem c.items k with
  | none => false
  | some it => decide (now < it.timestamp + c.ttl)

/-- The structural invariant of the cache (spec section 3): the lookup
map has no duplicate keys (it embeds a Python dict), and every stored
item has its live (timestamp, key) entry somewhere in the purge queue;
stale queue entries for overwritten or removed keys are tolerated. -/
def Cache.WF (c : Cache κ α) : Prop :=
  (c.items.map Prod.fst).Nodup ∧
  ∀ p ∈ c.items, (p.2.timestamp, p.1) ∈ c.purge_queue

instance (c : Cache κ α) : Decidable c.WF := by
  unfold Cache.WF
  infer_instance

/-- Cache.get (lines 50-54): the value, or KeyError when absent or expired. -/
def Cache.getValue (c : Cache κ α) (k : κ) (now : Int) : Except PyErr α :=
  match lookupItem c.items k with
  | none => .error .keyError
  | some it =>
    if it.timestamp + c.ttl ≤ now then .error .keyError else .ok it.value

/-! ## The nonce cache (noncecache.py, class NonceCache) -/

/-- NonceCache (noncecache.py lines 94-145).  The nonce key type is
Option String: the nonce that check_signature passes in is the stored
parameter value, which Python allows to be None. -/
structure NonceCache where
  window : Int
  max_size : Option Nat
  seen : Cache (Option String) Bool
deriving DecidableEq, Repr

/-- NonceCache(window, max_size): window defaults to
DEFAULT_TIMESTAMP_WINDOW = 60; the underlying cache gets the window as
its ttl. -/
def NonceCache.new (window : Option Int) (max_size : Option Nat) : NonceCache :=
  let w := window.getD 60
  ⟨w, max_size, Cache.new w max_size⟩

/-- NonceCache.check_nonce (noncecache.py lines 123-145).  now embeds
self.get_time().  Returns the boolean result together with the new cache
state (the source mutates self._seen on the accepting path only). -/
def NonceCache.check_nonce (nc : NonceCache) (now timestamp : Int)
    (nonce : Option String) : Bool × NonceCache :=
  if ¬ (now - nc.window < timestamp ∧ timestamp < now + nc.window) then
    (false, nc)
  else if nc.seen.containsKey nonce now then
    (false, nc)
  else
    (true, { nc with seen := nc.seen.set nonce true (some timestamp) now })

/-! ## The normalized request view

The spec's NormalizedRequestView (section 3): method, scheme, the Host
header value, path with query string, content type, optional raw body,
and the credential header.  The credential header is held in parsed form
as a (scheme, params) pair, which is what webob's request.authorization
exposes and what sign_request writes back; the spec's HeaderCodec
(section 4.1) requires serialize and parse to round-trip, so the
structured form is observationally the header text. -/
structure Request where
  method : String
  path_qs : String
  scheme : String
  host : String
  content_type : String
  body : Option String
  authorization : Option (String × AuthParams)
deriving DecidableEq, Repr

/-- Modelled from the spec: section 4.1 HeaderCodec, lenient entry point
(utils.parse_authz_header(request, {}) from the absent utils.py).  On a
missing header the supplied default, the empty dict, is returned; on a
present header the parameter map is built starting from the scheme entry
and writing each parameter in order, as the parser's dict construction
does.  Malformed header text cannot arise in the structured model since
the serializer round-trips parser output. -/
def parse_authz_header (r : Request) : AuthParams :=
  match r.authorization with
  | none => []
  | some (sch, ps) => ps.foldl (fun acc kv => pSet acc kv.1 kv.2) [("scheme", some sch)]

/-- Lower-casing of the host, character by character (ASCII). -/
def lowerChar (c : Char) : Char :=
  if 65 ≤ c.toNat ∧ c.toNat ≤ 90 then Char.ofNat (c.toNat + 32) else c

/-- Lower-cased copy of a string. -/
def pyLower (s : String) : String :=
  ⟨s.data.map lowerChar⟩

/-- Split a host value of the form host:port on the last colon;
none when the value has no colon. -/
def splitLastColon (s : String) : Option (String × String) :=
  let rev := s.data.reverse
  if rev.contains ':' then
    let afterRev := rev.takeWhile (fun c => c ≠ ':')
    let beforeRev := rev.dropWhile (fun c => c ≠ ':')
    some (⟨beforeRev.tail.reverse⟩, ⟨afterRev.reverse⟩)
  else
    none

/-- Modelled from the spec: section 4.2 host/port derivation in the absent
utils.py.  A Host header of the form host:port is split on the last
colon; otherwise the scheme's default port is used: 80 for http, 443 for
https, and any other scheme raises ValueError
(test_normalized_request_string_errors_when_no_default_port pins the
exception type). -/
def hostPort (r : Request) : Except PyErr (String × String) :=
  match splitLastColon r.host with
  | some hp => .ok hp
  | none =>
    if r.scheme = "http" then .ok (r.host, "80")
    else if r.scheme = "https" then .ok (r.host, "443")
    else .error .valueError

/-- Read a required string parameter for the canonical string: a missing
key raises KeyError; a stored Python None raises TypeError when the
canonicalizer joins the fields. -/
def reqStrParam (ps : AuthParams) (k : String) : Except PyErr String :=
  match ps.lookup k with
  | none => .error .keyError
  | some none => .error .typeError
  | some (some s) => .ok s

/-- Modelled from the spec: section 4.2 buildSigningString together with
the wire layout of section 6, for utils.get_normalized_request_string of
the absent utils.py.  Fields in fixed order, each followed by a single
newline: format tag, ts, nonce, method verbatim, path with query,
lower-cased host, port, hash or empty, ext or empty. -/
def get_normalized_request_string (r : Request) (ps : AuthParams) :
    Except PyErr String := do
  let ts ← reqStrParam ps "ts"
  let nonce ← reqStrParam ps "nonce"
  let hp ← hostPort r
  let hashBit := (pGet ps "hash").getD ""
  let extBit := (pGet ps "ext").getD ""
  .ok ("hawk.1.header\n" ++ ts ++ "\n" ++ nonce ++ "\n" ++ r.method ++ "\n" ++
    r.path_qs ++ "\n" ++ pyLower hp.1 ++ "\n" ++ hp.2 ++ "\n" ++
    hashBit ++ "\n" ++ extBit ++ "\n")

/-- Modelled from the spec: section 4.2 buildPayloadHashInput for
utils.get_normalized_payload_string of the absent utils.py: content-type,
newline, raw body, newline; absent when the body is not available. -/
def get_normalized_payload_string (r : Request) : Option String :=
  match r.body with
  | none => none
  | some b => some (r.content_type ++ "\n" ++ b ++ "\n")

/-- Modelled from the spec: section 4.3 SignatureEngine.  The keyed-hash
digest (hmac over sha1 or sha256) followed by base64 is abstracted as a
concrete executable keyed digest of the algorithm name, the key and the
message; every theorem below depends only on this being a deterministic
function of those three inputs, never on cryptographic structure. -/
def keyedDigest (algorithm key msg : String) : String :=
  let mix := fun (a : Nat) (c : Char) => (a * 131 + c.toNat) % 1000000007
  let h1 := algorithm.data.foldl mix 7
  let h2 := key.data.foldl mix h1
  let h3 := msg.data.foldl mix h2
  "b64:" ++ toString h3

/-- Modelled from the spec: section 4.3, the unkeyed payload digest used
by hashPayload (a plain sha1/sha256 digest followed by base64),
abstracted in the same way as keyedDigest. -/
def payloadDigest (algorithm msg : String) : String :=
  let mix := fun (a : Nat) (c : Char) => (a * 137 + c.toNat) % 1000000007
  let h1 := algorithm.data.foldl mix 11
  let h2 := msg.data.foldl mix h1
  "b64:" ++ toString h2

/-- The supported algorithm table ALGORITHMS of hawkauthlib/__init__.py:
a lookup with an unknown name raises KeyError. -/
def checkAlgorithm (algorithm : Option String) : Except PyErr String :=
  let alg := algorithm.getD "sha256"
  if alg = "sha1" ∨ alg = "sha256" then .ok alg else .error .keyError

/-- Modelled from the spec: sections 4.2 and 4.3, utils.get_signature of
the absent utils.py: the keyed digest of the canonical signing string,
defaulting to the stronger algorithm; an unknown algorithm name raises
KeyError from the algorithm table. -/
def utilsGetSignature (r : Request) (key : String) (ps : AuthParams)
    (algorithm : Option String) : Except PyErr String := do
  let alg ← checkAlgorithm algorithm
  let msg ← get_normalized_request_string r ps
  .ok (keyedDigest alg key msg)

/-- Modelled from the spec: section 4.3 constantTimeEquals, the
utils.strings_differ of the absent utils.py.  Timing is outside the
model; functionally the routine decides inequality of its two string
arguments (test_strings_differ).  Its Python argument positions can also
carry None (a stored None parameter value, or hash_payload's None
result); taking the length of None raises TypeError. -/
def strings_differ : Option String → Option String → Except PyErr Bool
  | some a, some b => .ok (a ≠ b)
  | _, _ => .error .typeError

/-- The digit run of Python int(): a nonempty all-digit character list
converts to its value, anything else raises ValueError. -/
def pyIntCore (ds : List Char) : Except PyErr Int :=
  if ds ≠ [] ∧ ds.all (fun c => c.isDigit) then
    .ok (ds.foldl (fun a c => a * 10 + (c.toNat - 48 : Int)) 0)
  else .error .valueError

/-- Python int(x) on a parameter value: None raises TypeError, a string
parses as an optionally signed decimal integer or raises ValueError.
The model omits Python's tolerance for surrounding whitespace and
underscore separators, which no claim exercises. -/
def pyInt : Option String → Except PyErr Int
  | none => .error .typeError
  | some s =>
    match s.data with
    | [] => pyIntCore []
    | c :: rest =>
      if c = '-' then (pyIntCore rest).map (fun n => -n)
      else if c = '+' then pyIntCore rest
      else pyIntCore (c :: rest)

/-! ## The public operations (hawkauthlib/__init__.py)

Each operation carries the explicit inputs that the source draws from
ambient state: now for time.time() and freshNonce for os.urandom-based
nonce generation.  The normalize_request_object adapter of the absent
utils.py is, per the spec (sections 1 and 9), a pure argument adapter
from foreign request representations to the normalized view: it
normalizes the first argument and forwards the remaining arguments
unchanged, so it is the identity of this model. -/

/-- The shared parameter-resolution idiom of the public operations: use
the explicitly supplied params, else parse the request's header with the
empty default. -/
def effParams (r : Request) (params : Option AuthParams) : AuthParams :=
  match params with
  | some ps => ps
  | none => parse_authz_header r

/-- hash_payload (hawkauthlib/__init__.py lines 136-152): None when the
payload string is unavailable, otherwise the base64 digest under the
given algorithm (default sha256; ALGORITHMS lookup raises KeyError on an
unknown name). -/
def hash_payload (r : Request) (algorithm : Option String) :
    Except PyErr (Option String) :=
  match get_normalized_payload_string r with
  | none => .ok none
  | some s => do
    let alg ← checkAlgorithm algorithm
    .ok (some (payloadDigest alg s))

/-- Serialization of one parameter value for the outgoing header text.
Modelled from the spec: section 4.1, quotes and backslashes re-escaped;
a stored Python None is rendered by str() coercion. -/
def serializeVal : Option String → String
  | none => "None"
  | some s =>
    "\"" ++ s.data.foldl (fun acc c =>
      if c = '"' ∨ c = '\\' then acc ++ "\\" ++ String.singleton c
      else acc ++ String.singleton c) "" ++ "\""

/-- Modelled from the spec: section 4.1, the serializer of the absent
HeaderCodec: scheme token, space, comma-joined name=value pairs. -/
def serializeHeader (scheme : String) (ps : AuthParams) : String :=
  scheme ++ " " ++ String.intercalate ", "
    (ps.map (fun kv => kv.1 ++ "=" ++ serializeVal kv.2))

/-- sign_request (hawkauthlib/__init__.py lines 54-91).  Returns the new
Authorization header text and the updated request.  When params is not
supplied they are parsed from the request, the scheme entry is popped
and a foreign scheme clears the map; id is set, ts and nonce are
defaulted, the payload hash is stored (hash_payload's None included)
when include_payload_hash is set, the mac is computed last and the
header is written back onto the request. -/
def sign_request (r : Request) (id_ key : String) (include_payload_hash : Bool)
    (algorithm : Option String) (params : Option AuthParams)
    (now : Int) (freshNonce : String) : Except PyErr (String × Request) := do
  let ps0 :=
    match params with
    | some ps => ps
    | none =>
      let ps := parse_authz_header r
      if ps ≠ [] then
        if pGet ps "scheme" ≠ some "Hawk" then [] else pRemove ps "scheme"
      else ps
  let ps1 := pSet ps0 "id" (some id_)
  let ps2 := if pHas ps1 "ts" then ps1 else pSet ps1 "ts" (some (toString now))
  let ps3 := if pHas ps2 "nonce" then ps2 else pSet ps2 "nonce" (some freshNonce)
  let ps4 ←
    if include_payload_hash then do
      let h ← hash_payload r algorithm
      pure (pSet ps3 "hash" h)
    else pure ps3
  let mac ← utilsGetSignature r key ps4 algorithm
  let ps5 := pSet ps4 "mac" (some mac)
  .ok (serializeHeader "Hawk" ps5, { r with authorization := some ("Hawk", ps5) })

/-- get_signature (hawkauthlib/__init__.py lines 109-133), embedded with
its state visible: the triple holds the result, the request as the
caller observes it afterwards, and the caller's params argument as the
caller observes it afterwards.  The source defaults the algorithm,
parses params from the request when absent, copies the params dict
before injecting the payload hash (line 131), and computes the
signature; it writes to neither the request nor the caller's dict, which
is why both state components pass through unchanged. -/
def get_signature_st (r : Request) (key : String) (include_payload_hash : Bool)
    (algorithm : Option String) (params : Option AuthParams) :
    Except PyErr String × Request × Option AuthParams :=
  let alg := some (algorithm.getD "sha256")
  let ps := effParams r params
  let res : Except PyErr String := do
    let ps' ←
      if include_payload_hash then do
        let h ← hash_payload r alg
        pure (pSet ps "hash" h)
      else pure ps
    utilsGetSignature r key ps' alg
  (res, r, params)

/-- verify_payload (hawkauthlib/__init__.py lines 155-177).  The source
evaluates params["hash"] (KeyError when absent) and then calls the
module-level hash_payload as hash_payload(request, params, algorithm):
three positional arguments into a callee whose signature is
hash_payload(request, algorithm=None) behind the argument-forwarding
normalize_request_object adapter, which raises TypeError before any
comparison can happen. -/
def verify_payload (r : Request) (params : Option AuthParams)
    (algorithm : Option String) : Except PyErr Bool :=
  let ps := effParams r params
  match pItem ps "hash" with
  | .error e => .error e
  | .ok _claimedHash => .error .typeError

/-- The try block of check_signature (hawkauthlib/__init__.py lines
220-236), line by line: read and convert ts, read the nonce, compute the
expected signature, constant-time-compare against the claimed mac,
optionally verify the payload hash, and finally consult the nonce cache
(none embeds nonces=False, where the source skips the check). -/
def tryCheck (r : Request) (key : String) (verify_payload_hash : Bool)
    (algorithm : Option String) (ps : AuthParams) (nonces : Option NonceCache)
    (now : Int) : Except PyErr (Bool × Option NonceCache) :=
  match pItem ps "ts" with
  | .error e => .error e
  | .ok tsv =>
  match pyInt tsv with
  | .error e => .error e
  | .ok timestamp =>
  match pItem ps "nonce" with
  | .error e => .error e
  | .ok nonce =>
  match utilsGetSignature r key ps algorithm with
  | .error e => .error e
  | .ok expected_sig =>
  match pItem ps "mac" with
  | .error e => .error e
  | .ok macv =>
  match strings_differ macv (some expected_sig) with
  | .error e => .error e
  | .ok differ =>
  if differ then .ok (false, nonces)
  else
    match
      (if verify_payload_hash ∧ pHas ps "hash" then
        verify_payload r (some ps) algorithm
      else .ok true) with
    | .error e => .error e
    | .ok payloadOk =>
      if ¬ payloadOk then .ok (false, nonces)
      else
        match nonces with
        | none => .ok (true, none)
        | some nc =>
          let res := nc.check_nonce now timestamp nonce
          if ¬ res.1 then .ok (false, some res.2)
          else .ok (true, some res.2)

/-- check_signature (hawkauthlib/__init__.py lines 180-239).  nonces of
none embeds nonces=False (checking disabled); some nc embeds an explicit
cache (the nonces=None default resolves to the process-global NonceCache
instance, which behaves as an explicit cache).  now feeds the nonce
cache's get_time.  The pair returned is the Python return value or
uncaught exception, together with the nonce cache as left behind.  The
except clause catches exactly KeyError and ValueError, converting them
to a False return. -/
def check_signature (r : Request) (key : String) (require_payload_hash : Bool)
    (verify_payload_hash : Bool) (algorithm : Option String)
    (params : Option AuthParams) (nonces : Option NonceCache) (now : Int) :
    Except PyErr Bool × Option NonceCache :=
  let ps := effParams r params
  if pGet ps "scheme" ≠ some "Hawk" then (.ok false, nonces)
  else if require_payload_hash ∧ ¬ pHas ps "hash" then (.ok false, nonces)
  else
    match tryCheck r key verify_payload_hash algorithm ps nonces now with
    | .ok res => (.ok res.1, res.2)
    | .error .keyError => (.ok false, nonces)
    | .error .valueError => (.ok false, nonces)
    | .error e => (.error e, nonces)

/-! ## Concrete fixtures

Concrete requests and parameters used by the closed theorems and
witnesses below; the values follow the repository's own test vectors
(test_request_objects.py, test_signatures.py, test_utils.py). -/

/-- The GET request of the repository's test vectors, with a payload. -/
def testReqC1 : Request :=
  { method := "GET"
    path_qs := "/resource/1?b=1&a=2"
    scheme := "http"
    host := "example.com:8000"
    content_type := "text/plain"
    body := some "just some text"
    authorization := none }

/-- The pre-supplied Hawk parameters of the test vectors. -/
def baseParamsC1 : AuthParams :=
  [("id", some "dh37fgj492je"), ("ts", some "1353832234"),
   ("nonce", some "j4h3g2"), ("ext", some "some-app-ext-data")]

/-- The shared secret of the test vectors. -/
def testKey : String := "werxhqb98rpaxn39848xrunpaw3489ruxnpa98w4rxn"

/-- The ts value of the test vectors, as the current time. -/
def testNow : Int := 1353832234

/-- The result of signing testReqC1 with the default options
(include_payload_hash true). -/
def signResC1 : Except PyErr (String × Request) :=
  sign_request testReqC1 "dh37fgj492je" testKey true none (some baseParamsC1)
    testNow "j4h3g2"

/-- The signed request extracted from signResC1. -/
def signedC1 : Request :=
  ((signResC1.toOption).map Prod.snd).getD testReqC1

/-- testReqC1 signed with include_payload_hash false: no hash parameter
is stored, so check_signature's payload-verification branch is skipped. -/
def signedNoHash : Request :=
  (((sign_request testReqC1 "dh37fgj492je" testKey false none (some baseParamsC1)
      testNow "j4h3g2").toOption).map Prod.snd).getD testReqC1

/-- A request whose scheme has no default port and whose Host header
carries no explicit port, after
test_normalized_request_string_errors_when_no_default_port. -/
def portReq : Request :=
  { method := "GET"
    path_qs := "/"
    scheme := "httptypo"
    host := "example.com"
    content_type := ""
    body := none
    authorization := some ("Hawk",
      [("ts", some "1"), ("nonce", some "2"), ("mac", some "xx")]) }

/-- The explicit parameter map of portReq's header, with the scheme entry
the lenient parser adds. -/
def portParams : AuthParams :=
  [("scheme", some "Hawk"), ("ts", some "1"), ("nonce", some "2"),
   ("mac", some "xx")]

/-- A fresh default nonce cache. -/
def freshNC : NonceCache := NonceCache.new none none

/-- A cache with ttl 1 and size bound 2 holding two entries, following
test_that_cache_respects_max_size. -/
def cacheW : Cache String String :=
  ((Cache.new 1 (some 2)).set "hello" "world" none 0).set "how" "are" none 0

/-! ## Supporting lemmas -/

theorem except_bind_ok {A B : Type} (a : A) (f : A → Except PyErr B) :
    (Except.ok a : Except PyErr A) >>= f = f a := rfl

theorem except_bind_err {A B : Type} (e : PyErr) (f : A → Except PyErr B) :
    (Except.error e : Except PyErr A) >>= f = .error e := rfl

theorem except_pure {A : Type} (a : A) :
    (pure a : Except PyErr A) = .ok a := rfl

theorem lookup_cons_eq {β : Type} (k : String) (v : β)
    (tl : List (String × β)) : List.lookup k ((k, v) :: tl) = some v := by
  simp [List.lookup]

theorem lookup_cons_ne {β : Type} (k k' : String) (v : β)
    (tl : List (String × β)) (h : k ≠ k') :
    List.lookup k ((k', v) :: tl) = List.lookup k tl := by
  have hb : (k == k') = false := by
    simpa using h
  simp [List.lookup, hb]

theorem lookup_pSet_self (ps : AuthParams) (k : String) (v : Option String) :
    (pSet ps k v).lookup k = some v := by
  induction ps with
  | nil => simp [pSet, lookup_cons_eq]
  | cons hd tl ih =>
    rcases hd with ⟨k', v'⟩
    by_cases hk : k' = k
    · subst hk
      simp [pSet, lookup_cons_eq]
    · simp only [pSet, if_neg hk]
      rw [lookup_cons_ne _ _ _ _ (fun h => hk h.symm), ih]

theorem lookup_pSet_ne (ps : AuthParams) (k k' : String) (v : Option String)
    (h : k' ≠ k) : (pSet ps k v).lookup k' = ps.lookup k' := by
  induction ps with
  | nil => simp [pSet, lookup_cons_ne _ _ _ _ h]
  | cons hd tl ih =>
    rcases hd with ⟨k0, v0⟩
    by_cases hk : k0 = k
    · subst hk
      simp [pSet, lookup_cons_ne _ _ _ _ h]
    · simp only [pSet, if_neg hk]
      by_cases hk' : k' = k0
      · subst hk'
        rw [lookup_cons_eq, lookup_cons_eq]
      · rw [lookup_cons_ne _ _ _ _ hk', lookup_cons_ne _ _ _ _ hk', ih]

theorem purgeItem_queue {κ α : Type} [DecidableEq κ] (c : Cache κ α)
    (e : Int × κ) (rest : List (Int × κ))
    (h : c.purge_queue = e :: rest) : (c.purgeItem).purge_queue = rest := by
  unfold Cache.purgeItem
  rw [h]
  rcases e with ⟨t, k⟩
  rcases hl : lookupItem c.items k with _ | it
  · simp [hl]
  · by_cases ht : it.timestamp = t <;> simp [hl, ht]

theorem purgeItem_ttl {κ α : Type} [DecidableEq κ] (c : Cache κ α) :
    (c.purgeItem).ttl = c.ttl := by
  unfold Cache.purgeItem
  rcases hq : c.purge_queue with _ | ⟨⟨t, k⟩, rest⟩
  · rfl
  · rcases hl : lookupItem c.items k with _ | it
    · simp [hl]
    · by_cases ht : it.timestamp = t <;> simp [hl, ht]

theorem purgeSizeLoop_ttl {κ α : Type} [DecidableEq κ] (fuel m : Nat)
    (c : Cache κ α) : (Cache.purgeSizeLoop fuel m c).ttl = c.ttl := by
  induction fuel generalizing c with
  | zero => rfl
  | succ n ih =>
    unfold Cache.purgeSizeLoop
    by_cases hm : m ≤ c.items.length
    · rcases hq : c.purge_queue with _ | ⟨e, rest⟩ <;>
        simp [hm, hq, ih, purgeItem_ttl]
    · simp [hm]

theorem purgeExpiredLoop_ttl {κ α : Type} [DecidableEq κ] (fuel : Nat)
    (deadline : Int) (c : Cache κ α) :
    (Cache.purgeExpiredLoop fuel deadline c).ttl = c.ttl := by
  induction fuel generalizing c with
  | zero => rfl
  | succ n ih =>
    unfold Cache.purgeExpiredLoop
    rcases hq : c.purge_queue with _ | ⟨⟨t, k⟩, rest⟩
    · rfl
    · by_cases ht : deadline < t <;> simp [ht, ih, purgeItem_ttl]

theorem set_ttl {κ α : Type} [DecidableEq κ] (c : Cache κ α) (k : κ) (v : α)
    (ts? : Option Int) (now : Int) : (c.set k v ts? now).ttl = c.ttl := by
  unfold Cache.set
  by_cases hms : c.max_size.getD 0 ≠ 0 <;>
    simp [hms, purgeExpiredLoop_ttl, purgeSizeLoop_ttl]

theorem lookupItem_setItem_self {κ α : Type} [DecidableEq κ]
    (l : List (κ × CacheItem α)) (k : κ) (it : CacheItem α) :
    lookupItem (setItem l k it) k = some it := by
  induction l with
  | nil => simp [setItem, lookupItem]
  | cons hd tl ih =>
    rcases hd with ⟨k', it'⟩
    by_cases hk : k' = k
    · subst hk
      simp [setItem, lookupItem]
    · simp [setItem, lookupItem, hk, ih]

theorem set_lookup_self {κ α : Type} [DecidableEq κ] (c : Cache κ α) (k : κ)
    (v : α) (ts? : Option Int) (now : Int) :
    lookupItem (c.set k v ts? now).items k = some ⟨v, ts?.getD now⟩ := by
  unfold Cache.set
  by_cases hms : c.max_size.getD 0 ≠ 0 <;>
    simp [hms, lookupItem_setItem_self]

theorem except_map_err {A B : Type} (e : PyErr) (f : A → B) :
    (Except.error e : Except PyErr A).map f = .error e := rfl

theorem pyIntCore_err (ds : List Char) (e : PyErr)
    (h : pyIntCore ds = .error e) : e = .valueError := by
  unfold pyIntCore at h
  split at h
  · exact Except.noConfusion h
  · injection h with h
    exact h.symm

theorem pyInt_some_err (s : String) (e : PyErr)
    (h0 : pyInt (some s) = .error e) : e = .valueError := by
  have h : (match s.data with
      | [] => pyIntCore []
      | c :: rest =>
        if c = '-' then (pyIntCore rest).map (fun n => -n)
        else if c = '+' then pyIntCore rest
        else pyIntCore (c :: rest)) = Except.error e := h0
  rcases hd : s.data with _ | ⟨c, rest⟩
  · rw [hd] at h
    exact pyIntCore_err _ _ h
  · rw [hd] at h
    have h2 : (if c = '-' then (pyIntCore rest).map (fun n => -n)
        else if c = '+' then pyIntCore rest
        else pyIntCore (c :: rest)) = Except.error e := h
    by_cases hc : c = '-'
    · rw [if_pos hc] at h2
      rcases hcore : pyIntCore rest with e' | i
      · rw [hcore, except_map_err] at h2
        injection h2 with h2
        exact h2 ▸ pyIntCore_err _ _ hcore
      · rw [hcore] at h2
        exact Except.noConfusion h2
    · rw [if_neg hc] at h2
      by_cases hc' : c = '+'
      · rw [if_pos hc'] at h2
        exact pyIntCore_err _ _ h2
      · rw [if_neg hc'] at h2
        exact pyIntCore_err _ _ h2

/-- Port resolution in the canonicalizer: a host without an explicit
port together with a scheme that has no default port makes
get_normalized_request_string raise ValueError, provided the ts and
nonce parameters are present as strings so that the canonicalizer
reaches the host/port step. -/
theorem port_canonical_error (r : Request) (ps : AuthParams)
    (hhost : splitLastColon r.host = none)
    (hsch1 : r.scheme ≠ "http") (hsch2 : r.scheme ≠ "https")
    (hts : ∃ s, ps.lookup "ts" = some (some s))
    (hn : ∃ s, ps.lookup "nonce" = some (some s)) :
    get_normalized_request_string r ps = .error .valueError := by
  obtain ⟨s1, hs1⟩ := hts
  obtain ⟨s2, hs2⟩ := hn
  have h1 : reqStrParam ps "ts" = .ok s1 := by simp [reqStrParam, hs1]
  have h2 : reqStrParam ps "nonce" = .ok s2 := by simp [reqStrParam, hs2]
  have h3 : hostPort r = .error .valueError := by
    simp [hostPort, hhost, hsch1, hsch2]
  simp [get_normalized_request_string, h1, h2, h3, except_bind_ok,
    except_bind_err]

/-- The same port fault surfaces from utils.get_signature under any
recognized algorithm. -/
theorem utilsGS_port_error (r : Request) (key : String) (ps : AuthParams)
    (alg : Option String) (a : String)
    (halg : checkAlgorithm alg = .ok a)
    (hhost : splitLastColon r.host = none)
    (hsch1 : r.scheme ≠ "http") (hsch2 : r.scheme ≠ "https")
    (hts : ∃ s, ps.lookup "ts" = some (some s))
    (hn : ∃ s, ps.lookup "nonce" = some (some s)) :
    utilsGetSignature r key ps alg = .error .valueError := by
  have h3 := port_canonical_error r ps hhost hsch1 hsch2 hts hn
  simp [utilsGetSignature, halg, h3, except_bind_ok, except_bind_err]

theorem lookup_mem {β : Type} (ps : List (String × β)) (k : String) (v : β)
    (h : ps.lookup k = some v) : (k, v) ∈ ps := by
  induction ps with
  | nil => simp [List.lookup] at h
  | cons hd tl ih =>
    rcases hd with ⟨k0, v0⟩
    by_cases hk : k = k0
    · subst hk
      rw [lookup_cons_eq] at h
      injection h with h
      subst h
      exact List.mem_cons_self _ _
    · rw [lookup_cons_ne _ _ _ _ hk] at h
      exact List.mem_cons_of_mem _ (ih h)

theorem pItem_err (ps : AuthParams) (k : String) (e : PyErr)
    (h : pItem ps k = .error e) : e = .keyError := by
  unfold pItem at h
  rcases hl : ps.lookup k with _ | v <;> rw [hl] at h
  · injection h with h
    exact h.symm
  · exact Except.noConfusion h

theorem pItem_ok (ps : AuthParams) (k : String) (v : Option String)
    (h : pItem ps k = .ok v) : ps.lookup k = some v := by
  unfold pItem at h
  rcases hl : ps.lookup k with _ | v' <;> rw [hl] at h
  · exact Except.noConfusion h
  · injection h with h
    rw [h]

theorem StrValued_some (ps : AuthParams) (k : String) (v : Option String)
    (hstr : ∀ kv ∈ ps, kv.2 ≠ none) (h : ps.lookup k = some v) :
    ∃ s, v = some s := by
  rcases v with _ | s
  · exact absurd rfl (hstr (k, none) (lookup_mem ps k none h))
  · exact ⟨s, rfl⟩

theorem hostPort_err (r : Request) (e : PyErr)
    (h : hostPort r = .error e) : e = .valueError := by
  unfold hostPort at h
  rcases hs : splitLastColon r.host with _ | hp <;> rw [hs] at h
  · by_cases h1 : r.scheme = "http"
    · rw [if_pos h1] at h
      exact Except.noConfusion h
    · rw [if_neg h1] at h
      by_cases h2 : r.scheme = "https"
      · rw [if_pos h2] at h
        exact Except.noConfusion h
      · rw [if_neg h2] at h
        injection h with h
        exact h.symm
  · exact Except.noConfusion h

theorem reqStrParam_err (ps : AuthParams) (k : String) (e : PyErr)
    (hstr : ∀ kv ∈ ps, kv.2 ≠ none)
    (h : reqStrParam ps k = .error e) : e = .keyError := by
  unfold reqStrParam at h
  rcases hl : ps.lookup k with _ | v <;> rw [hl] at h
  · injection h with h
    exact h.symm
  · obtain ⟨s, hs⟩ := StrValued_some ps k v hstr hl
    subst hs
    exact Except.noConfusion h

theorem checkAlgorithm_err (alg : Option String) (e : PyErr)
    (h : checkAlgorithm alg = .error e) : e = .keyError := by
  unfold checkAlgorithm at h
  by_cases ha : alg.getD "sha256" = "sha1" ∨ alg.getD "sha256" = "sha256"
  · rw [if_pos ha] at h
    exact Except.noConfusion h
  · rw [if_neg ha] at h
    injection h with h
    exact h.symm

theorem getNRS_err (r : Request) (ps : AuthParams) (e : PyErr)
    (hstr : ∀ kv ∈ ps, kv.2 ≠ none)
    (h : get_normalized_request_string r ps = .error e) :
    e = .keyError ∨ e = .valueError := by
  unfold get_normalized_request_string at h
  rcases h1 : reqStrParam ps "ts" with e1 | s1 <;> rw [h1] at h
  · rw [except_bind_err] at h
    injection h with h
    exact Or.inl (h ▸ reqStrParam_err ps "ts" e1 hstr h1)
  · rw [except_bind_ok] at h
    rcases h2 : reqStrParam ps "nonce" with e2 | s2 <;> rw [h2] at h
    · rw [except_bind_err] at h
      injection h with h
      exact Or.inl (h ▸ reqStrParam_err ps "nonce" e2 hstr h2)
    · rw [except_bind_ok] at h
      rcases h3 : hostPort r with e3 | hp <;> rw [h3] at h
      · rw [except_bind_err] at h
        injection h with h
        exact Or.inr (h ▸ hostPort_err r e3 h3)
      · rw [except_bind_ok] at h
        exact Except.noConfusion h

theorem utilsGS_err (r : Request) (key : String) (ps : AuthParams)
    (alg : Option String) (e : PyErr)
    (hstr : ∀ kv ∈ ps, kv.2 ≠ none)
    (h : utilsGetSignature r key ps alg = .error e) :
    e = .keyError ∨ e = .valueError := by
  unfold utilsGetSignature at h
  rcases h1 : checkAlgorithm alg with e1 | a <;> rw [h1] at h
  · rw [except_bind_err] at h
    injection h with h
    exact Or.inl (h ▸ checkAlgorithm_err alg e1 h1)
  · rw [except_bind_ok] at h
    rcases h2 : get_normalized_request_string r ps with e2 | msg <;> rw [h2] at h
    · rw [except_bind_err] at h
      injection h with h
      exact h ▸ getNRS_err r ps e2 hstr h2
    · rw [except_bind_ok] at h
      exact Except.noConfusion h

theorem lookupItem_none_iff {κ α : Type} [DecidableEq κ]
    (l : List (κ × CacheItem α)) (k : κ) :
    lookupItem l k = none ↔ k ∉ l.map Prod.fst := by
  induction l with
  | nil => simp [lookupItem]
  | cons hd tl ih =>
    rcases hd with ⟨k0, it0⟩
    by_cases hk : k0 = k
    · subst hk
      simp [lookupItem]
    · simp only [lookupItem, if_neg hk, List.map_cons, List.mem_cons]
      rw [ih]
      constructor
      · intro h hor
        rcases hor with h1 | h1
        · exact hk h1.symm
        · exact h h1
      · intro h h1
        exact h (Or.inr h1)

theorem lookupItem_some_mem {κ α : Type} [DecidableEq κ]
    (l : List (κ × CacheItem α)) (k : κ) (it : CacheItem α)
    (h : lookupItem l k = some it) : (k, it) ∈ l := by
  induction l with
  | nil => simp [lookupItem] at h
  | cons hd tl ih =>
    rcases hd with ⟨k0, it0⟩
    by_cases hk : k0 = k
    · subst hk
      simp [lookupItem] at h
      subst h
      exact List.mem_cons_self _ _
    · simp [lookupItem, hk] at h
      exact List.mem_cons_of_mem _ (ih h)

theorem mem_removeItem {κ α : Type} [DecidableEq κ]
    (l : List (κ × CacheItem α)) (k : κ) (p : κ × CacheItem α)
    (h : p ∈ removeItem l k) : p ∈ l := by
  induction l with
  | nil => simpa [removeItem] using h
  | cons hd tl ih =>
    rcases hd with ⟨k0, it0⟩
    by_cases hk : k0 = k
    · subst hk
      simp only [removeItem, if_pos rfl] at h
      exact List.mem_cons_of_mem _ h
    · simp only [removeItem, if_neg hk] at h
      rcases List.mem_cons.mp h with h | h
      · subst h
        exact List.mem_cons_self _ _
      · exact List.mem_cons_of_mem _ (ih h)

theorem mem_keys_removeItem {κ α : Type} [DecidableEq κ]
    (l : List (κ × CacheItem α)) (k a : κ)
    (h : a ∈ (removeItem l k).map Prod.fst) : a ∈ l.map Prod.fst := by
  obtain ⟨p, hp, hpa⟩ := List.mem_map.mp h
  exact List.mem_map.mpr ⟨p, mem_removeItem l k p hp, hpa⟩

theorem nodup_keys_removeItem {κ α : Type} [DecidableEq κ]
    (l : List (κ × CacheItem α)) (k : κ)
    (h : (l.map Prod.fst).Nodup) : ((removeItem l k).map Prod.fst).Nodup := by
  induction l with
  | nil => simp [removeItem]
  | cons hd tl ih =>
    rcases hd with ⟨k0, it0⟩
    simp only [List.map_cons, List.nodup_cons] at h
    by_cases hk : k0 = k
    · subst hk
      simp only [removeItem, if_pos rfl]
      exact h.2
    · simp only [removeItem, if_neg hk, List.map_cons, List.nodup_cons]
      exact ⟨fun hm => h.1 (mem_keys_removeItem tl k k0 hm), ih h.2⟩

theorem not_mem_keys_removeItem {κ α : Type} [DecidableEq κ]
    (l : List (κ × CacheItem α)) (k : κ)
    (h : (l.map Prod.fst).Nodup) : k ∉ (removeItem l k).map Prod.fst := by
  induction l with
  | nil => simp [removeItem]
  | cons hd tl ih =>
    rcases hd with ⟨k0, it0⟩
    simp only [List.map_cons, List.nodup_cons] at h
    by_cases hk : k0 = k
    · subst hk
      simp only [removeItem, if_pos rfl]
      exact h.1
    · simp only [removeItem, if_neg hk, List.map_cons]
      intro hm
      rcases List.mem_cons.mp hm with hm | hm
      · exact hk hm.symm
      · exact ih h.2 hm

theorem removeItem_length_le {κ α : Type} [DecidableEq κ]
    (l : List (κ × CacheItem α)) (k : κ) :
    (removeItem l k).length ≤ l.length := by
  induction l with
  | nil => simp [removeItem]
  | cons hd tl ih =>
    rcases hd with ⟨k0, it0⟩
    by_cases hk : k0 = k
    · simp only [removeItem, if_pos hk, List.length_cons]
      omega
    · simp only [removeItem, if_neg hk, List.length_cons]
      omega

theorem removeItem_length_mem {κ α : Type} [DecidableEq κ]
    (l : List (κ × CacheItem α)) (k : κ) (h : k ∈ l.map Prod.fst) :
    (removeItem l k).length + 1 = l.length := by
  induction l with
  | nil => simp at h
  | cons hd tl ih =>
    rcases hd with ⟨k0, it0⟩
    by_cases hk : k0 = k
    · simp [removeItem, if_pos hk]
    · simp only [List.map_cons, List.mem_cons] at h
      rcases h with h | h
      · exact absurd h.symm hk
      · simp only [removeItem, if_neg hk, List.length_cons, ih h]

theorem purgeItem_WF {κ α : Type} [DecidableEq κ] (c : Cache κ α)
    (h : c.WF) : (c.purgeItem).WF := by
  obtain ⟨hnd, hcov⟩ := h
  unfold Cache.purgeItem
  rcases hq : c.purge_queue with _ | ⟨⟨t, k⟩, rest⟩
  · exact ⟨hnd, hcov⟩
  · rcases hl : lookupItem c.items k with _ | it
    · simp only [hl]
      refine ⟨hnd, ?_⟩
      intro p hp
      have hmem := hcov p hp
      rw [hq] at hmem
      rcases List.mem_cons.mp hmem with heq | hmem
      · exfalso
        have hk : p.1 = k := (Prod.mk.injEq _ _ _ _ ▸ heq).2
        exact (lookupItem_none_iff c.items k |>.mp hl)
          (List.mem_map.mpr ⟨p, hp, hk⟩)
      · exact hmem
    · by_cases ht : it.timestamp = t
      · simp only [hl, if_pos ht]
        refine ⟨nodup_keys_removeItem _ _ hnd, ?_⟩
        intro p hp
        have hpl := mem_removeItem _ _ _ hp
        have hmem := hcov p hpl
        rw [hq] at hmem
        rcases List.mem_cons.mp hmem with heq | hmem
        · exfalso
          have hk : p.1 = k := (Prod.mk.injEq _ _ _ _ ▸ heq).2
          exact (not_mem_keys_removeItem c.items k hnd)
            (List.mem_map.mpr ⟨p, hp, hk⟩)
        · exact hmem
      · simp only [hl, if_neg ht]
        constructor
        · rw [List.map_append, List.nodup_append]
          refine ⟨nodup_keys_removeItem _ _ hnd, List.nodup_singleton _, ?_⟩
          intro a ha hb
          simp only [List.map_cons, List.map_nil, List.mem_singleton] at hb
          exact (not_mem_keys_removeItem c.items k hnd) (hb ▸ ha)
        · intro p hp
          rcases List.mem_append.mp hp with hp1 | hp2
          · have hpl := mem_removeItem _ _ _ hp1
            have hmem := hcov p hpl
            rw [hq] at hmem
            rcases List.mem_cons.mp hmem with heq | hmem
            · exfalso
              have hk : p.1 = k := (Prod.mk.injEq _ _ _ _ ▸ heq).2
              exact (not_mem_keys_removeItem c.items k hnd)
                (List.mem_map.mpr ⟨p, hp1, hk⟩)
            · exact hmem
          · simp only [List.mem_singleton] at hp2
            subst hp2
            have hmem := hcov (k, it) (lookupItem_some_mem _ _ _ hl)
            rw [hq] at hmem
            rcases List.mem_cons.mp hmem with heq | hmem
            · exfalso
              exact ht (Prod.mk.injEq _ _ _ _ ▸ heq).1
            · exact hmem

theorem purgeItem_length_le {κ α : Type} [DecidableEq κ] (c : Cache κ α) :
    (c.purgeItem).items.length ≤ c.items.length := by
  unfold Cache.purgeItem
  rcases hq : c.purge_queue with _ | ⟨⟨t, k⟩, rest⟩
  · exact Nat.le_refl _
  · rcases hl : lookupItem c.items k with _ | it
    · simp only [hl]
      exact Nat.le_refl _
    · by_cases ht : it.timestamp = t
      · simp only [hl, if_pos ht]
        exact removeItem_length_le _ _
      · simp only [hl, if_neg ht]
        have hk : k ∈ c.items.map Prod.fst :=
          List.mem_map.mpr ⟨(k, it), lookupItem_some_mem _ _ _ hl, rfl⟩
        have := removeItem_length_mem c.items k hk
        simp only [List.length_append, List.length_cons, List.length_nil]
        omega

theorem purgeSizeLoop_WF {κ α : Type} [DecidableEq κ] (fuel m : Nat)
    (c : Cache κ α) (h : c.WF) : (Cache.purgeSizeLoop fuel m c).WF := by
  induction fuel generalizing c with
  | zero => exact h
  | succ n ih =>
    unfold Cache.purgeSizeLoop
    by_cases hm : m ≤ c.items.length
    · rw [if_pos hm]
      rcases hq : c.purge_queue with _ | ⟨e, rest⟩
      · exact h
      · exact ih _ (purgeItem_WF _ h)
    · rw [if_neg hm]
      exact h

theorem purgeSizeLoop_post {κ α : Type} [DecidableEq κ] (fuel m : Nat)
    (c : Cache κ α) (h : c.WF) (hm0 : m ≠ 0)
    (hfuel : c.purge_queue.length ≤ fuel) :
    (Cache.purgeSizeLoop fuel m c).items.length < m := by
  induction fuel generalizing c with
  | zero =>
    show c.items.length < m
    by_contra hge
    push_neg at hge
    have hqe : c.purge_queue = [] :=
      List.length_eq_zero.mp (Nat.le_zero.mp hfuel)
    rcases hitems : c.items with _ | ⟨p, prest⟩
    · rw [hitems] at hge
      simp at hge
      omega
    · have hp : p ∈ c.items := by
        rw [hitems]
        exact List.mem_cons_self _ _
      have hcov := h.2 p hp
      rw [hqe] at hcov
      simp at hcov
  | succ n ih =>
    unfold Cache.purgeSizeLoop
    by_cases hm : m ≤ c.items.length
    · rw [if_pos hm]
      rcases hq : c.purge_queue with _ | ⟨e, rest⟩
      · exfalso
        have hpos : 0 < c.items.length :=
          Nat.lt_of_lt_of_le (Nat.pos_of_ne_zero hm0) hm
        rcases hitems : c.items with _ | ⟨p, prest⟩
        · rw [hitems] at hpos
          simp at hpos
        · have hp : p ∈ c.items := by
            rw [hitems]
            exact List.mem_cons_self _ _
          have hcov := h.2 p hp
          rw [hq] at hcov
          simp at hcov
      · apply ih
        · exact purgeItem_WF _ h
        · have hql := purgeItem_queue c e rest hq
          rw [hql]
          have hlen : c.purge_queue.length = rest.length + 1 := by
            rw [hq]
            rfl
          omega
    · rw [if_neg hm]
      omega

theorem purgeExpiredLoop_WF {κ α : Type} [DecidableEq κ] (fuel : Nat)
    (deadline : Int) (c : Cache κ α) (h : c.WF) :
    (Cache.purgeExpiredLoop fuel deadline c).WF := by
  induction fuel generalizing c with
  | zero => exact h
  | succ n ih =>
    unfold Cache.purgeExpiredLoop
    rcases hq : c.purge_queue with _ | ⟨⟨t, k⟩, rest⟩
    · exact h
    · show (if deadline < t then c
        else Cache.purgeExpiredLoop n deadline c.purgeItem).WF
      by_cases ht : deadline < t
      · rw [if_pos ht]
        exact h
      · rw [if_neg ht]
        exact ih _ (purgeItem_WF _ h)

theorem purgeExpiredLoop_length_le {κ α : Type} [DecidableEq κ] (fuel : Nat)
    (deadline : Int) (c : Cache κ α) :
    (Cache.purgeExpiredLoop fuel deadline c).items.length ≤ c.items.length := by
  induction fuel generalizing c with
  | zero => exact le_rfl
  | succ n ih =>
    unfold Cache.purgeExpiredLoop
    rcases hq : c.purge_queue with _ | ⟨⟨t, k⟩, rest⟩
    · exact le_rfl
    · show (if deadline < t then c
        else Cache.purgeExpiredLoop n deadline c.purgeItem).items.length ≤
          c.items.length
      by_cases ht : deadline < t
      · rw [if_pos ht]
      · rw [if_neg ht]
        exact le_trans (ih _) (purgeItem_length_le _)

theorem mem_setItem {κ α : Type} [DecidableEq κ]
    (l : List (κ × CacheItem α)) (k : κ) (it : CacheItem α)
    (p : κ × CacheItem α) (h : p ∈ setItem l k it) :
    p = (k, it) ∨ p ∈ l := by
  induction l with
  | nil => simpa [setItem] using h
  | cons hd tl ih =>
    rcases hd with ⟨k0, it0⟩
    by_cases hk : k0 = k
    · subst hk
      simp only [setItem, if_pos rfl] at h
      rcases List.mem_cons.mp h with h | h
      · exact Or.inl h
      · exact Or.inr (List.mem_cons_of_mem _ h)
    · simp only [setItem, if_neg hk] at h
      rcases List.mem_cons.mp h with h | h
      · subst h
        exact Or.inr (List.mem_cons_self _ _)
      · rcases ih h with h | h
        · exact Or.inl h
        · exact Or.inr (List.mem_cons_of_mem _ h)

theorem mem_keys_setItem {κ α : Type} [DecidableEq κ]
    (l : List (κ × CacheItem α)) (k : κ) (it : CacheItem α) (a : κ)
    (h : a ∈ (setItem l k it).map Prod.fst) :
    a = k ∨ a ∈ l.map Prod.fst := by
  obtain ⟨p, hp, hpa⟩ := List.mem_map.mp h
  rcases mem_setItem l k it p hp with h1 | h1
  · subst h1
    exact Or.inl hpa.symm
  · exact Or.inr (List.mem_map.mpr ⟨p, h1, hpa⟩)

theorem nodup_keys_setItem {κ α : Type} [DecidableEq κ]
    (l : List (κ × CacheItem α)) (k : κ) (it : CacheItem α)
    (h : (l.map Prod.fst).Nodup) : ((setItem l k it).map Prod.fst).Nodup := by
  induction l with
  | nil => simp [setItem]
  | cons hd tl ih =>
    rcases hd with ⟨k0, it0⟩
    simp only [List.map_cons, List.nodup_cons] at h
    by_cases hk : k0 = k
    · subst hk
      have hset : setItem ((k0, it0) :: tl) k0 it = (k0, it) :: tl := by
        simp [setItem]
      rw [hset, List.map_cons, List.nodup_cons]
      exact h
    · simp only [setItem, if_neg hk, List.map_cons, List.nodup_cons]
      refine ⟨?_, ih h.2⟩
      intro hm
      rcases mem_keys_setItem tl k it k0 hm with hm | hm
      · exact hk hm
      · exact h.1 hm

theorem length_setItem_le {κ α : Type} [DecidableEq κ]
    (l : List (κ × CacheItem α)) (k : κ) (it : CacheItem α) :
    (setItem l k it).length ≤ l.length + 1 := by
  induction l with
  | nil => simp [setItem]
  | cons hd tl ih =>
    rcases hd with ⟨k0, it0⟩
    by_cases hk : k0 = k
    · simp only [setItem, if_pos hk, List.length_cons]
      omega
    · simp only [setItem, if_neg hk, List.length_cons]
      omega

theorem mem_qInsert_self {κ : Type} (e : Int × κ) (q : List (Int × κ)) :
    e ∈ qInsert e q := by
  induction q with
  | nil => simp [qInsert]
  | cons f rest ih =>
    by_cases hf : e.1 < f.1
    · simp [qInsert, hf]
    · simp only [qInsert, if_neg hf]
      exact List.mem_cons_of_mem _ ih

theorem mem_qInsert_of_mem {κ : Type} (e e' : Int × κ) (q : List (Int × κ))
    (h : e' ∈ q) : e' ∈ qInsert e q := by
  induction q with
  | nil => simp at h
  | cons f rest ih =>
    by_cases hf : e.1 < f.1
    · simp only [qInsert, if_pos hf]
      exact List.mem_cons_of_mem _ h
    · simp only [qInsert, if_neg hf]
      rcases List.mem_cons.mp h with h | h
      · subst h
        exact List.mem_cons_self _ _
      · exact List.mem_cons_of_mem _ (ih h)

/-! ## Theorems -/

/-- C1.  For every request R, id and key K, signing with sign_request and
then calling check_signature with nonce checking disabled is claimed to
return True; the repository's test_passing_webob_request_as_request_object
asserts exactly this round trip.  On the source as written the round trip
instead raises TypeError: sign_request stores a hash parameter, so
check_signature reaches verify_payload, whose line 177 calls hash_payload
with three positional arguments (request, params, algorithm) against the
two-parameter signature hash_payload(request, algorithm), an arity error.
The theorem evaluates the code at the failing input: signing succeeds,
and the subsequent check raises TypeError instead of returning True. -/
theorem c1_sign_then_check_raises :
    signResC1.toOption.isSome = true ∧
    (check_signature signedC1 testKey false true none none none testNow).1 =
      .error .typeError := by
  exact ⟨rfl, rfl⟩

/-- C3.  verify_payload is claimed to return True iff a hash parameter is
present and matches, and to return False rather than raise on a missing
hash parameter.  On the source it never returns a boolean: with a hash
parameter present, line 177's three-argument call of the two-parameter
hash_payload raises TypeError; with the hash parameter missing,
params["hash"] raises KeyError.  The theorem evaluates both failing
inputs. -/
theorem c3_verify_payload_raises :
    verify_payload testReqC1 (some [("hash", some "claimedhash")]) none =
      .error .typeError ∧
    verify_payload testReqC1 (some []) none = .error .keyError := by
  exact ⟨rfl, rfl⟩

/-- C10.  A rejected check_nonce call leaves the cache unchanged: both
rejection paths (timestamp outside the window, nonce already seen) return
before the accepting path's write to the seen-cache. -/
theorem c10_reject_leaves_cache_unchanged (nc : NonceCache) (now ts : Int)
    (nonce : Option String) (h : (nc.check_nonce now ts nonce).1 = false) :
    (nc.check_nonce now ts nonce).2 = nc := by
  unfold NonceCache.check_nonce at h ⊢
  by_cases hw : ¬ (now - nc.window < ts ∧ ts < now + nc.window)
  · simp [hw]
  · by_cases hs : nc.seen.containsKey nonce now
    · simp [hw, hs]
    · simp [hw, hs] at h

/-- C10 witness: a concrete rejected call (timestamp 40 against now 100
with the default window 60 lies outside the window) leaves the fresh
cache unchanged. -/
theorem c10_witness :
    (freshNC.check_nonce 100 40 (some "abc")).1 = false ∧
    (freshNC.check_nonce 100 40 (some "abc")).2 = freshNC := by
  exact ⟨rfl, c10_reject_leaves_cache_unchanged freshNC 100 40 (some "abc") rfl⟩

/-- C9.  get_signature is pure with respect to its caller-visible state:
the request object (in particular its stored Authorization header) and
the caller-supplied params mapping come back exactly as they went in;
the source copies the params dict before injecting the payload hash
(line 131) and never assigns to request.authorization. -/
theorem c9_get_signature_pure (r : Request) (key : String)
    (include_payload_hash : Bool) (algorithm : Option String)
    (params : Option AuthParams) :
    (get_signature_st r key include_payload_hash algorithm params).2.1 = r ∧
    (get_signature_st r key include_payload_hash algorithm params).2.2 = params ∧
    (get_signature_st r key include_payload_hash algorithm params).2.1.authorization
      = r.authorization := by
  exact ⟨rfl, rfl, rfl⟩

/-- C6.  The default window is 60, and for a nonce the cache does not
currently contain, check_nonce accepts exactly the timestamps strictly
inside (now - window, now + window): both boundaries rejected, interior
accepted. -/
theorem c6_window_strict :
    (NonceCache.new none none).window = 60 ∧
    ∀ (nc : NonceCache) (now ts : Int) (nonce : Option String),
      nc.seen.containsKey nonce now = false →
      ((nc.check_nonce now ts nonce).1 = true ↔
        (now - nc.window < ts ∧ ts < now + nc.window)) := by
  refine ⟨rfl, ?_⟩
  intro nc now ts nonce hns
  unfold NonceCache.check_nonce
  by_cases hw : now - nc.window < ts ∧ ts < now + nc.window
  · simp [hw, hns]
  · simp [hw]

/-- C6 witness: with the default window 60 and a fresh cache, timestamp
90 against now 100 is inside the window and accepted, obtained from the
theorem at that concrete input. -/
theorem c6_witness :
    (freshNC.check_nonce 100 90 (some "abc")).1 = true := by
  exact (c6_window_strict.2 freshNC 100 90 (some "abc") rfl).mpr (by decide)

/-- C5.  A pair accepted by a cache is rejected by the same cache on any
later check of the same nonce while the stored entry is unexpired
(now2 earlier than the stored timestamp plus the seen-cache ttl), and
the same pair is accepted by a freshly created cache with the same
window. -/
theorem c5_replay_rejected_fresh_accepts (nc : NonceCache) (now ts : Int)
    (nonce : Option String) (nc' : NonceCache) (now2 ts2 : Int)
    (h : nc.check_nonce now ts nonce = (true, nc'))
    (hunexp : now2 < ts + nc.seen.ttl) :
    (nc'.check_nonce now2 ts2 nonce).1 = false ∧
    ((NonceCache.new (some nc.window) none).check_nonce now ts nonce).1 = true := by
  unfold NonceCache.check_nonce at h
  by_cases hw : now - nc.window < ts ∧ ts < now + nc.window
  · by_cases hs : nc.seen.containsKey nonce now
    · simp [hw, hs] at h
    · simp only [hw, not_true_eq_false, if_false, hs, if_neg, not_false_eq_true,
        if_true, Prod.mk.injEq, true_and, not_not] at h
      constructor
      · have hnc' : nc' = { nc with seen := nc.seen.set nonce true (some ts) now } := by
          cases h
          rfl
        subst hnc'
        unfold NonceCache.check_nonce
        by_cases hw2 : now2 - nc.window < ts2 ∧ ts2 < now2 + nc.window
        · have hcont :
              (nc.seen.set nonce true (some ts) now).containsKey nonce now2 = true := by
            unfold Cache.containsKey
            rw [set_lookup_self]
            simp only [Option.getD_some]
            rw [set_ttl]
            simpa using hunexp
          simp [hw2, hcont]
        · simp [hw2]
      · unfold NonceCache.check_nonce
        have hcont2 :
            ((NonceCache.new (some nc.window) none).seen.containsKey nonce now) = false := by
          rfl
        simp [NonceCache.new, hw, hcont2, Cache.containsKey, Cache.new, lookupItem]
  · simp [hw] at h

/-- Structure of the try block: whenever its result carries a nonce
cache different from the one supplied, the constant-time MAC comparison
succeeded with equal strings and, if payload verification was enabled
with a hash parameter present, verify_payload returned True. -/
theorem tryCheck_write (r : Request) (key : String) (vph : Bool)
    (alg : Option String) (ps : AuthParams) (nc : NonceCache) (now : Int)
    (res : Bool × Option NonceCache)
    (htry : tryCheck r key vph alg ps (some nc) now = .ok res)
    (hW2 : res.2 ≠ some nc) :
    ∃ macv expected,
      pItem ps "mac" = .ok macv ∧
      utilsGetSignature r key ps alg = .ok expected ∧
      strings_differ macv (some expected) = .ok false ∧
      (vph ∧ pHas ps "hash" = true → verify_payload r (some ps) alg = .ok true) := by
  unfold tryCheck at htry
  rcases h1 : pItem ps "ts" with e1 | tsv <;> simp only [h1] at htry
  · exact Except.noConfusion htry
  rcases h2 : pyInt tsv with e2 | ts <;> simp only [h2] at htry
  · exact Except.noConfusion htry
  rcases h3 : pItem ps "nonce" with e3 | nonce <;> simp only [h3] at htry
  · exact Except.noConfusion htry
  rcases h4 : utilsGetSignature r key ps alg with e4 | expected <;> simp only [h4] at htry
  · exact Except.noConfusion htry
  rcases h5 : pItem ps "mac" with e5 | macv <;> simp only [h5] at htry
  · exact Except.noConfusion htry
  rcases h6 : strings_differ macv (some expected) with e6 | differ <;> simp only [h6] at htry
  · exact Except.noConfusion htry
  rcases differ with _ | _
  · -- differ = false: the mac comparison succeeded
    rw [if_neg (by decide)] at htry
    rcases h7 : (if vph = true ∧ pHas ps "hash" = true then
        verify_payload r (some ps) alg
      else Except.ok true) with e7 | pOk <;> simp only [h7] at htry
    · exact Except.noConfusion htry
    rcases pOk with _ | _
    · -- payload check failed: the result keeps the supplied cache
      rw [if_pos (by decide)] at htry
      injection htry with htry
      exact absurd (congrArg Prod.snd htry).symm hW2
    · refine ⟨macv, expected, rfl, rfl, h6, ?_⟩
      intro hcond
      rw [if_pos (by simpa using hcond)] at h7
      exact h7
  · -- differ = true: the result keeps the supplied cache
    rw [if_pos (by decide)] at htry
    injection htry with htry
    exact absurd (congrArg Prod.snd htry).symm hW2

/-- C2.  check_signature writes to the nonce cache only after the earlier
checks succeed: whenever a call leaves the cache changed, the claimed mac
was read, the expected signature was computed, their constant-time
comparison found them equal, and, when payload verification is enabled
and a hash parameter is present, verify_payload returned True; the
source evaluates these in exactly that order (lines 220-236), and every
other path returns with the cache untouched. -/
theorem c2_no_write_before_success (r : Request) (key : String)
    (rph vph : Bool) (alg : Option String) (params : Option AuthParams)
    (nc : NonceCache) (now : Int)
    (hW : (check_signature r key rph vph alg params (some nc) now).2 ≠ some nc) :
    ∃ macv expected,
      pItem (effParams r params) "mac" = .ok macv ∧
      utilsGetSignature r key (effParams r params) alg = .ok expected ∧
      strings_differ macv (some expected) = .ok false ∧
      (vph ∧ pHas (effParams r params) "hash" = true →
        verify_payload r (some (effParams r params)) alg = .ok true) := by
  by_cases hsch : pGet (effParams r params) "scheme" ≠ some "Hawk"
  · exact absurd (by simp [check_signature, hsch]) hW
  · by_cases hrph : rph ∧ ¬ pHas (effParams r params) "hash"
    · exact absurd (by simp [check_signature, hsch, hrph]) hW
    · have hC : ¬(rph = true ∧ pHas (effParams r params) "hash" = false) := by
        simpa using hrph
      rcases htry : tryCheck r key vph alg (effParams r params) (some nc) now
        with e | res
      · rcases e <;>
          exact absurd (by simp [check_signature, hsch, hC, htry]) hW
      · have hsnd : (check_signature r key rph vph alg params (some nc) now).2 =
            res.2 := by
          simp [check_signature, hsch, hC, htry]
        exact tryCheck_write r key vph alg (effParams r params) nc now res htry
          (hsnd ▸ hW)

/-- C2 witness: a request signed without a payload hash checks
successfully against a fresh cache and the nonce is recorded, so the
cache changes, and the theorem's conclusions evaluate at that input. -/
theorem c2_witness :
    ((check_signature signedNoHash testKey false true none none
        (some freshNC) testNow).2 ≠ some freshNC) ∧
    ∃ macv expected,
      pItem (effParams signedNoHash none) "mac" = .ok macv ∧
      utilsGetSignature signedNoHash testKey (effParams signedNoHash none) none =
        .ok expected ∧
      strings_differ macv (some expected) = .ok false ∧
      (true ∧ pHas (effParams signedNoHash none) "hash" = true →
        verify_payload signedNoHash (some (effParams signedNoHash none)) none =
          .ok true) := by
  refine ⟨by decide, ?_⟩
  exact c2_no_write_before_success signedNoHash testKey false true none none
    freshNC testNow (by decide)

/-- C7.  For string-valued Hawk parameters (the only kind the header
parser produces), a missing ts, nonce or mac parameter, or a ts value
that does not parse as a decimal integer, makes check_signature return
False without propagating an exception and leaves the nonce cache
untouched, for every setting of nonce checking including disabled:
each such failure raises KeyError or ValueError inside the try block,
and the except clause converts exactly those into a False return. -/
theorem c7_missing_params_false (r : Request) (key : String)
    (rph vph : Bool) (alg : Option String) (ps : AuthParams)
    (nonces : Option NonceCache) (now : Int)
    (hstr : ∀ kv ∈ ps, kv.2 ≠ none)
    (hmiss : ps.lookup "ts" = none ∨
      (∃ s, ps.lookup "ts" = some (some s) ∧
        pyInt (some s) = .error .valueError) ∨
      ps.lookup "nonce" = none ∨ ps.lookup "mac" = none) :
    check_signature r key rph vph alg (some ps) nonces now =
      (.ok false, nonces) := by
  by_cases hsch : pGet ps "scheme" ≠ some "Hawk"
  · simp [check_signature, effParams, hsch]
  · by_cases hrph : rph ∧ ¬ pHas ps "hash"
    · simp [check_signature, effParams, hsch, hrph]
    · have hC : ¬(rph = true ∧ pHas ps "hash" = false) := by simpa using hrph
      have htry : ∃ e, tryCheck r key vph alg ps nonces now = .error e ∧
          (e = PyErr.keyError ∨ e = PyErr.valueError) := by
        rcases h1 : pItem ps "ts" with e1 | tsv
        · exact ⟨e1, by simp [tryCheck, h1],
            Or.inl (pItem_err ps "ts" e1 h1)⟩
        · obtain ⟨s, hs⟩ := StrValued_some ps "ts" tsv hstr (pItem_ok _ _ _ h1)
          subst hs
          rcases h2 : pyInt (some s) with e2 | i
          · exact ⟨e2, by simp [tryCheck, h1, h2],
              Or.inr (pyInt_some_err s e2 h2)⟩
          · rcases h3 : pItem ps "nonce" with e3 | nonce
            · exact ⟨e3, by simp [tryCheck, h1, h2, h3],
                Or.inl (pItem_err ps "nonce" e3 h3)⟩
            · rcases h4 : utilsGetSignature r key ps alg with e4 | expected
              · exact ⟨e4, by simp [tryCheck, h1, h2, h3, h4],
                  utilsGS_err r key ps alg e4 hstr h4⟩
              · -- every earlier step succeeded, so the missing parameter is mac
                have hmac : ps.lookup "mac" = none := by
                  rcases hmiss with h | h | h | h
                  · rw [pItem_ok _ _ _ h1] at h
                    exact Option.noConfusion h
                  · obtain ⟨s', hs', hbad⟩ := h
                    rw [pItem_ok _ _ _ h1] at hs'
                    injection hs' with hs'
                    injection hs' with hs'
                    rw [hs'] at h2
                    rw [h2] at hbad
                    exact Except.noConfusion hbad
                  · rw [pItem_ok _ _ _ h3] at h
                    exact Option.noConfusion h
                  · exact h
                have h5 : pItem ps "mac" = .error .keyError := by
                  simp [pItem, hmac]
                exact ⟨.keyError, by simp [tryCheck, h1, h2, h3, h4, h5],
                  Or.inl rfl⟩
      obtain ⟨e, he, hcase⟩ := htry
      rcases hcase with h | h <;> subst h <;>
        simp [check_signature, effParams, hsch, hC, he]

/-- C7 witness: parameters carrying the Hawk scheme with ts and nonce
but no mac produce a False result with the cache untouched, with nonce
checking disabled. -/
theorem c7_witness :
    check_signature testReqC1 testKey false true none
      (some [("scheme", some "Hawk"), ("ts", some "1"), ("nonce", some "2")])
      none 5 = (.ok false, none) := by
  exact c7_missing_params_false testReqC1 testKey false true none
    [("scheme", some "Hawk"), ("ts", some "1"), ("nonce", some "2")] none 5
    (by decide) (Or.inr (Or.inr (Or.inr rfl)))

/-- C8.  For a well-formed cache with a nonzero size bound m, one call
to set first runs the size-bound eviction loop (which, by the queue
coverage invariant, can always pop an entry while the map is at the
bound, and leaves the map strictly under it), then purges at most the
fixed batch of five expired entries, then inserts the new entry into
both the map and the queue; the resulting cache is well-formed again,
holds the new entry, and its stored item count never exceeds m. -/
theorem c8_set_respects_bound {κ α : Type} [DecidableEq κ] (c : Cache κ α)
    (k : κ) (v : α) (ts? : Option Int) (now : Int) (m : Nat)
    (hWF : c.WF) (hm : c.max_size = some m) (hm0 : m ≠ 0) :
    (c.set k v ts? now).items.length ≤ m ∧
    (c.set k v ts? now).WF ∧
    lookupItem (c.set k v ts? now).items k = some ⟨v, ts?.getD now⟩ := by
  have hms : c.max_size.getD 0 = m := by
    rw [hm]
    rfl
  have hcond : c.max_size.getD 0 ≠ 0 := by
    rw [hms]
    exact hm0
  simp only [Cache.set]
  rw [if_pos hcond]
  set d := Cache.purgeExpiredLoop 5 (now - c.ttl)
    (Cache.purgeSizeLoop c.purge_queue.length (c.max_size.getD 0) c) with hd
  have hdWF : d.WF := by
    rw [hd]
    exact purgeExpiredLoop_WF _ _ _ (purgeSizeLoop_WF _ _ _ hWF)
  have hdlen : d.items.length < m := by
    rw [hd]
    refine Nat.lt_of_le_of_lt (purgeExpiredLoop_length_le _ _ _) ?_
    rw [hms]
    exact purgeSizeLoop_post _ _ _ hWF hm0 (Nat.le_refl _)
  refine ⟨?_, ⟨?_, ?_⟩, ?_⟩
  · show (setItem d.items k ⟨v, ts?.getD now⟩).length ≤ m
    have hle := length_setItem_le d.items k ⟨v, ts?.getD now⟩
    omega
  · show ((setItem d.items k ⟨v, ts?.getD now⟩).map Prod.fst).Nodup
    exact nodup_keys_setItem _ _ _ hdWF.1
  · intro p hp
    have hp' : p ∈ setItem d.items k ⟨v, ts?.getD now⟩ := hp
    rcases mem_setItem _ _ _ _ hp' with h | h
    · subst h
      exact mem_qInsert_self _ _
    · exact mem_qInsert_of_mem _ _ _ (hdWF.2 p h)
  · show lookupItem (setItem d.items k ⟨v, ts?.getD now⟩) k =
      some ⟨v, ts?.getD now⟩
    exact lookupItem_setItem_self _ _ _

/-- C8 witness: the bounded cache of the repository's max-size test,
holding two entries at its bound of two, accepts a third entry while
staying within the bound, remaining well-formed and holding the new
entry. -/
theorem c8_witness :
    cacheW.WF ∧
    (cacheW.set "you" "today?" none 0).items.length ≤ 2 ∧
    (cacheW.set "you" "today?" none 0).WF ∧
    lookupItem (cacheW.set "you" "today?" none 0).items "you" =
      some ⟨"today?", 0⟩ := by
  have h := c8_set_respects_bound cacheW "you" "today?" none 0 2
    (by decide) rfl (by decide)
  exact ⟨by decide, h.1, h.2.1, h.2.2⟩

/-- C4 counterexample.  The claim says the port-resolution failure is
surfaced as an explicit error from the public operations including
check_signature.  At a concrete request whose scheme httptypo has no
default port and whose Host header has no explicit port (the request of
the repository's own port test), check_signature returns False instead of
an error: the failure is a ValueError, and check_signature's except
clause catches ValueError. -/
theorem c4_counterexample_check_returns_false :
    check_signature portReq "anykey" false true none none none 5 =
      (.ok false, none) := by
  exact rfl

/-- C4 amended.  When the scheme has no known default port and the Host
header has no explicit port, the failure is raised as ValueError by the
canonicalizer and propagates out of the public operations that do not
catch ValueError, namely get_signature and sign_request; check_signature,
whose except clause catches ValueError, instead converts it into a False
return value (the ts and nonce parameters must be present as strings for
the computation to reach port resolution). -/
theorem c4_amended_port_fault (r : Request) (id_ key : String)
    (ps : AuthParams) (now : Int) (freshNonce : String)
    (hhost : splitLastColon r.host = none)
    (hsch1 : r.scheme ≠ "http") (hsch2 : r.scheme ≠ "https")
    (hts : ∃ s, ps.lookup "ts" = some (some s))
    (hn : ∃ s, ps.lookup "nonce" = some (some s)) :
    get_normalized_request_string r ps = .error .valueError ∧
    (get_signature_st r key false none (some ps)).1 = .error .valueError ∧
    sign_request r id_ key false none (some ps) now freshNonce =
      .error .valueError ∧
    ∀ (rph vph : Bool) (nonces : Option NonceCache) (now2 : Int),
      check_signature r key rph vph none (some ps) nonces now2 =
        (.ok false, nonces) := by
  obtain ⟨s1, hs1⟩ := hts
  obtain ⟨s2, hs2⟩ := hn
  refine ⟨port_canonical_error r ps hhost hsch1 hsch2 ⟨s1, hs1⟩ ⟨s2, hs2⟩,
    ?_, ?_, ?_⟩
  · have hgs : utilsGetSignature r key ps (some "sha256") = .error .valueError :=
      utilsGS_port_error r key ps (some "sha256") "sha256" rfl hhost hsch1 hsch2
        ⟨s1, hs1⟩ ⟨s2, hs2⟩
    simp [get_signature_st, effParams, hgs, except_pure, except_bind_ok,
      except_bind_err]
  · have hts1 : (pSet ps "id" (some id_)).lookup "ts" = some (some s1) := by
      rw [lookup_pSet_ne _ _ _ _ (by decide)]
      exact hs1
    have hn1 : (pSet ps "id" (some id_)).lookup "nonce" = some (some s2) := by
      rw [lookup_pSet_ne _ _ _ _ (by decide)]
      exact hs2
    have hgs1 : utilsGetSignature r key (pSet ps "id" (some id_)) none =
        .error .valueError :=
      utilsGS_port_error r key _ none "sha256" rfl hhost hsch1 hsch2
        ⟨s1, hts1⟩ ⟨s2, hn1⟩
    have hHasTs : pHas (pSet ps "id" (some id_)) "ts" = true := by
      simp [pHas, hts1]
    have hHasN : pHas (pSet ps "id" (some id_)) "nonce" = true := by
      simp [pHas, hn1]
    simp [sign_request, hHasTs, hHasN, hgs1, except_pure, except_bind_ok,
      except_bind_err]
  · intro rph vph nonces now2
    by_cases hsch : pGet ps "scheme" ≠ some "Hawk"
    · simp [check_signature, effParams, hsch]
    · by_cases hrph : rph ∧ ¬ pHas ps "hash"
      · simp [check_signature, effParams, hsch, hrph]
      · have htsI : pItem ps "ts" = .ok (some s1) := by simp [pItem, hs1]
        have hnI : pItem ps "nonce" = .ok (some s2) := by simp [pItem, hs2]
        have hgs : utilsGetSignature r key ps none = .error .valueError :=
          utilsGS_port_error r key ps none "sha256" rfl hhost hsch1 hsch2
            ⟨s1, hs1⟩ ⟨s2, hs2⟩
        have htry : tryCheck r key vph none ps nonces now2 = .error .valueError := by
          rcases hpi : pyInt (some s1) with e | i
          · have he := pyInt_some_err s1 e hpi
            subst he
            simp [tryCheck, htsI, hpi]
          · simp [tryCheck, htsI, hpi, hnI, hgs]
        simp [check_signature, effParams, hsch, hrph, htry]

/-- C4 witness: the amended theorem applied at the repository's own
port-test request: the canonicalizer surfaces ValueError while
check_signature returns False. -/
theorem c4_amended_witness :
    get_normalized_request_string portReq portParams = .error .valueError ∧
    check_signature portReq "anykey" false true none (some portParams) none 5 =
      (.ok false, none) := by
  have h := c4_amended_port_fault portReq "someid" "anykey" portParams 5 "fn"
    rfl (by decide) (by decide) ⟨"1", rfl⟩ ⟨"2", rfl⟩
  exact ⟨h.1, h.2.2.2 false true none 5⟩

/-- C5 witness: the pair (100, PEPPER) accepted by a fresh default cache
is rejected when checked again on the resulting cache, and a second
fresh cache accepts it. -/
theorem c5_witness :
    ((freshNC.check_nonce 100 100 (some "PEPPER")).2.check_nonce 100 100
      (some "PEPPER")).1 = false ∧
    ((NonceCache.new (some freshNC.window) none).check_nonce 100 100
      (some "PEPPER")).1 = true := by
  have h := c5_replay_rejected_fresh_accepts freshNC 100 100 (some "PEPPER")
    ((freshNC.check_nonce 100 100 (some "PEPPER")).2) 100 100 rfl (by decide)
  exact ⟨h.1, h.2⟩

end Hawk
